import Mathlib

/-!
# Verification of the structure-tensor corner detector (`src/corner_detector.cpp`)

A shallow embedding of `CornerDetector` in Lean 4.  Images and intermediate
fields are functions `Fin h → Fin w → ℚ` (floating-point samples are modelled
by rationals); OpenCV `Mat` operations used by the source are embedded one by
one.  Values that IEEE arithmetic would turn into `Inf`/`NaN` (division by
zero in the harmonic-mean metric) are modelled as `Option ℚ` with `none` for
the non-finite result, and OpenCV calls that raise (failed `CV_Assert`) are
modelled with `Except`.
-/

set_option autoImplicit false

-- Batteries marks the arithmetic of `Rat` irreducible; restoring the default
-- reducibility lets `decide` evaluate the embedded pipeline on the concrete
-- rational-valued witness inputs below.
attribute [local semireducible] Rat.add Rat.mul Rat.sub Rat.inv Rat.ofScientific

/-- Decidable equality of `Except` results, for evaluating the embedded
detector on concrete inputs. -/
instance {e a : Type} [DecidableEq e] [DecidableEq a] : DecidableEq (Except e a)
  | .ok x, .ok y => decidable_of_iff (x = y) (by simp)
  | .ok _, .error _ => isFalse (by simp)
  | .error _, .ok _ => isFalse (by simp)
  | .error x, .error y => decidable_of_iff (x = y) (by simp)

namespace CornerLab

/-- Border index mapping of OpenCV `BORDER_REFLECT_101` (the default border of
`cv::filter2D`): `gfedcb | abcdefgh | gfedcba`.  Total on `ℤ`; the degenerate
extent `n ≤ 1` maps everything to `0`. -/
def reflect101 (n : ℕ) (i : ℤ) : ℕ :=
  if n ≤ 1 then 0
  else if i % (2 * ((n : ℤ) - 1)) < (n : ℤ) then (i % (2 * ((n : ℤ) - 1))).toNat
  else (2 * ((n : ℤ) - 1) - i % (2 * ((n : ℤ) - 1))).toNat

theorem reflect101_lt (n : ℕ) (i : ℤ) (hn : 0 < n) : reflect101 n i < n := by
  unfold reflect101
  by_cases h1 : n ≤ 1
  · simpa [h1] using hn
  · have hn2 : 2 ≤ n := by omega
    have hp : (0:ℤ) < 2 * ((n : ℤ) - 1) := by
      have h2 : (2:ℤ) ≤ (n:ℤ) := by exact_mod_cast hn2
      nlinarith
    have hj0 : 0 ≤ i % (2 * ((n : ℤ) - 1)) := Int.emod_nonneg i (by omega)
    have hjp : i % (2 * ((n : ℤ) - 1)) < 2 * ((n : ℤ) - 1) := Int.emod_lt_of_pos i hp
    simp only [h1, if_false]
    by_cases hj : i % (2 * ((n : ℤ) - 1)) < (n : ℤ)
    · simp only [hj, if_true]
      omega
    · simp only [hj, if_false]
      omega

/-- A single-channel image / scalar field of height `h` and width `w`
(`cv::Mat` of type `CV_32FC1`): first index is the row, second the column. -/
abbrev Mat (h w : ℕ) := Fin h → Fin w → ℚ

namespace Mat

variable {h w : ℕ}

/-- Border-extended element access with `BORDER_REFLECT_101` mapping of
out-of-range indices (row `i`, column `j`). -/
def atRefl (m : Mat h w) (i j : ℤ) : ℚ :=
  if hp : 0 < h ∧ 0 < w then
    m ⟨reflect101 h i, reflect101_lt h i hp.1⟩ ⟨reflect101 w j, reflect101_lt w j hp.2⟩
  else 0

/-- Elementwise product, `cv::Mat::mul`. -/
def mul (a b : Mat h w) : Mat h w := fun i j => a i j * b i j

/-- Elementwise sum, `operator+` on `cv::Mat`. -/
def add (a b : Mat h w) : Mat h w := fun i j => a i j + b i j

/-- Elementwise difference, `operator-` on `cv::Mat`. -/
def sub (a b : Mat h w) : Mat h w := fun i j => a i j - b i j

/-- Scaling by a scalar, `alpha * M` on `cv::Mat`. -/
def smul (c : ℚ) (a : Mat h w) : Mat h w := fun i j => c * a i j

/-- Elementwise maximum with a scalar, `cv::max(M, c)`. -/
def maxS (a : Mat h w) (c : ℚ) : Mat h w := fun i j => max (a i j) c

/-- Elementwise division `operator/` on floating `cv::Mat`: plain IEEE
division, so a zero divisor produces `±Inf` (nonzero numerator) or `NaN`
(zero numerator); both non-finite outcomes are modelled as `none`. -/
def divF (a b : Mat h w) : Fin h → Fin w → Option ℚ := fun i j =>
  if b i j = 0 then none else some (a i j / b i j)

end Mat

/-- Correlation of an image with a 1-D kernel laid out as a column vector
(the layout `cv::getGaussianKernel` produces), as `cv::filter2D` computes it:
`dst(i,j) = Σₜ k(t) · src(i + t − ⌊len/2⌋, j)` with `BORDER_REFLECT_101`.
`filter2D` correlates (it does not flip the kernel); the anchor is the
kernel centre.  A column kernel moves along the row index only. -/
def corr1Dy {h w : ℕ} (m : Mat h w) (k : List ℚ) : Mat h w := fun i j =>
  ((List.range k.length).map
    (fun t => k.getD t 0 * m.atRefl ((i : ℤ) + t - (k.length / 2 : ℕ)) (j : ℤ))).sum

/-- Correlation with the same 1-D kernel laid out as a row vector: moves
along the column index only. -/
def corr1Dx {h w : ℕ} (m : Mat h w) (k : List ℚ) : Mat h w := fun i j =>
  ((List.range k.length).map
    (fun t => k.getD t 0 * m.atRefl (i : ℤ) ((j : ℤ) + t - (k.length / 2 : ℕ)))).sum

/-- All pixel coordinates in the traversal order of `cv::findNonZero`
(row-major: row by row, left to right). -/
def allPixels (h w : ℕ) : List (Fin h × Fin w) :=
  (List.finRange h).flatMap (fun i => (List.finRange w).map (fun j => (i, j)))

/-- Global maximum of a response field, as `cv::minMaxLoc` reports it.
(The `[]` branch is unreachable for a non-empty image.) -/
def maxVal {h w : ℕ} (resp : Mat h w) : ℚ :=
  match (allPixels h w).map (fun p => resp p.1 p.2) with
  | [] => 0
  | v :: vs => vs.foldl max v

/-- The 3×3 neighbourhood offsets of the default structuring element of
`cv::dilate` (`cv::Mat()` denotes the full 3×3 rectangle). -/
def offsets9 : List (ℤ × ℤ) :=
  [(-1, -1), (-1, 0), (-1, 1), (0, -1), (0, 0), (0, 1), (1, -1), (1, 0), (1, 1)]

/-- In-bounds index check used by morphological dilation (the border value of
`cv::dilate` is `-∞`, so out-of-range neighbours never contribute). -/
def inFin (n : ℕ) (i : ℤ) : Option (Fin n) :=
  if hb : 0 ≤ i ∧ i < (n : ℤ) then some ⟨i.toNat, by omega⟩ else none

/-- Morphological dilation with the default 3×3 structuring element:
each pixel becomes the maximum of the response over its in-bounds 3×3
neighbourhood (`cv::dilate(response, local_max, cv::Mat())`). -/
def dilate3 {h w : ℕ} (resp : Mat h w) : Mat h w := fun i j =>
  offsets9.foldl
    (fun acc d =>
      match inFin h ((i : ℤ) + d.1), inFin w ((j : ℤ) + d.2) with
      | some i', some j' => max acc (resp i' j')
      | _, _ => acc)
    (resp i j)

/-- `cv::KeyPoint` as the source constructs it:
`cv::KeyPoint{point, keypoint_size, -1, response}` — position (column `x`,
row `y`), display size, angle fixed to `-1`, response score. -/
structure KeyPoint where
  x : ℕ
  y : ℕ
  size : ℚ
  angle : ℚ
  response : ℚ
deriving DecidableEq, Repr

/-- The maxima-selector stage of `CornerDetector::detect` (source lines
52–72): dilate the response, threshold at `quality_level · max response`,
keep pixels whose response strictly exceeds the threshold and equals the
dilated value, and emit one keypoint per surviving pixel in `findNonZero`
traversal order, with size `3 · window_sigma`. -/
def detectFromResponse {h w : ℕ} (quality_level window_sigma : ℚ)
    (resp : Mat h w) : List KeyPoint :=
  let local_max := dilate3 resp
  let threshold := quality_level * maxVal resp
  let locs := (allPixels h w).filter
    (fun p => decide (threshold < resp p.1 p.2 ∧ resp p.1 p.2 = local_max p.1 p.2))
  locs.map (fun p =>
    { x := p.2.val, y := p.1.val, size := 3 * window_sigma, angle := -1,
      response := resp p.1 p.2 })

/-- The three-way metric switch of the detector (`CornerMetric` in the
source header). -/
inductive CornerMetric where
  | harris
  | harmonic_mean
  | min_eigen
deriving DecidableEq, Repr

/-- Failures of embedded OpenCV calls (`CV_Assert` raising `cv::Exception`)
and the NaN degeneracy the spec (§7) identifies as corrupting detection. -/
inductive CvError where
  /-- `cv::eigen` asserts a single-channel `CV_32F`/`CV_64F` square input;
  the `CV_32FC3` matrix built by `minEigenMetric` always violates it. -/
  | eigenNonSingleChannel
  /-- `M.at<cv::Vec3f>(0) = A` converts the whole field `A` to a `cv::Vec3f`,
  which asserts that `A` is a 3-element single-column/row vector. -/
  | matToVec3fSizeMismatch
  /-- A non-finite value (`NaN`/`Inf`) entered the response field; per spec
  §7 it corrupts the global-max computation and the threshold comparisons. -/
  | nanResponse
deriving DecidableEq, Repr

/-- `CornerDetector::harrisMetric` (source lines 89–106), composed exactly as
the source: `det_M = A.mul(C) - B.mul(B)`, `trace_M = A + C`,
`response = det_M - alpha * trace_M.mul(trace_M)` with `alpha = 0.06`, then
`response = cv::max(response, 0.0)`. -/
def harrisMetric {h w : ℕ} (A B C : Mat h w) : Mat h w :=
  let alpha : ℚ := 0.06
  let det_M := (A.mul C).sub (B.mul B)
  let trace_M := A.add C
  let response := det_M.sub (Mat.smul alpha (trace_M.mul trace_M))
  response.maxS 0

/-- `CornerDetector::harmonicMeanMetric` (source lines 108–117):
`response = (A.mul(C)) / (A + C)` with no guard on the divisor, so a pixel
with `A + C = 0` divides by zero (yielding `NaN`, modelled as `none`). -/
def harmonicMeanMetric {h w : ℕ} (A B C : Mat h w) : Fin h → Fin w → Option ℚ :=
  (A.mul C).divF (A.add C)

/-- `CornerDetector::minEigenMetric` (source lines 119–139).  The source
allocates `M = cv::Mat::zeros(A.size(), CV_32FC3)` and then executes
`M.at<cv::Vec3f>(0) = A` (and likewise for `B`, `C`): the right-hand side
invokes `cv::Mat::operator cv::Vec<float,3>`, whose `CV_Assert` demands that
`A` be a single-channel 3-element vector (3×1 or 1×3), so it throws for every
other field shape.  Even when `A` is 3×1 or 1×3, the subsequent
`cv::eigen(M, eigenvalues)` asserts a single-channel `CV_32FC1`/`CV_64FC1`
square symmetric input and `M` is `CV_32FC3`, so the call throws there
instead.  In every case the function raises rather than returning a
response field. -/
def minEigenMetric {h w : ℕ} (A B C : Mat h w) : Except CvError (Mat h w) :=
  let _ := (A, B, C)
  if (h * w = 3) ∧ (h = 1 ∨ w = 1) then .error .eigenNonSingleChannel
  else .error .matToVec3fSizeMismatch

/-- Collect an `Option`-valued response field into a total one, failing when
any pixel is non-finite: the NaN-propagation model of spec §7 (a `NaN` in the
response corrupts `minMaxLoc` and the comparisons, so no well-defined
keypoint set results). -/
def seqField {h w : ℕ} (f : Fin h → Fin w → Option ℚ) : Except CvError (Mat h w) :=
  if (allPixels h w).all (fun p => (f p.1 p.2).isSome) then
    .ok (fun i j => (f i j).getD 0)
  else .error .nanResponse

/-- The detector state after construction (`CornerDetector`'s member fields;
`gradient_sigma` is not stored — only the kernels derived from it are). -/
structure CornerDetector where
  metric_type_ : CornerMetric
  do_visualize_ : Bool
  quality_level_ : ℚ
  window_sigma_ : ℚ
  g_kernel_ : List ℚ
  dg_kernel_ : List ℚ
  win_kernel_ : List ℚ
deriving DecidableEq, Repr

/-- The response-field computation of `CornerDetector::detect` (source lines
19–51).  Stage by stage: `Ix` is a single `cv::filter2D(image, Ix, -1,
g_kernel_)` — one 1-D kernel only — and `Iy` a single `filter2D` with
`dg_kernel_` (lines 19–23); the 1-D kernels are column vectors, so each
filters along the row axis only.  Then `A = Ix.mul(Ix)`, `B = Ix.mul(Iy)`,
`C = Iy.mul(Iy)`, each smoothed by one `filter2D` with `win_kernel_`, and
the response is computed by the metric selected at construction.
The `min_eigen` branch propagates the `cv::eigen` failure, and a `NaN`
produced by the harmonic-mean division is propagated as
`CvError.nanResponse`. -/
def CornerDetector.response {h w : ℕ} (d : CornerDetector) (image : Mat h w) :
    Except CvError (Mat h w) :=
  let Ix := corr1Dy image d.g_kernel_
  let Iy := corr1Dy image d.dg_kernel_
  let A := Ix.mul Ix
  let B := Ix.mul Iy
  let C := Iy.mul Iy
  let A := corr1Dy A d.win_kernel_
  let B := corr1Dy B d.win_kernel_
  let C := corr1Dy C d.win_kernel_
  match d.metric_type_ with
  | .harris => .ok (harrisMetric A B C)
  | .harmonic_mean => seqField (harmonicMeanMetric A B C)
  | .min_eigen => minEigenMetric A B C

/-- `CornerDetector::detect` (source lines 17–87): the response field of the
configured metric followed by the maxima selector.  Visualization
(`do_visualize_`) has no effect on the returned keypoints and is not
modelled. -/
def CornerDetector.detect {h w : ℕ} (d : CornerDetector) (image : Mat h w) :
    Except CvError (List KeyPoint) :=
  (d.response image).map (detectFromResponse d.quality_level_ d.window_sigma_)

/-- Configuration failure of kernel construction (spec §4.1). -/
inductive ConfigError where
  | nonPositiveSigma
deriving DecidableEq, Repr

/-- Modelled from the spec: `create1DGaussianKernel` is code of this
repository that is not under `src/` (only its caller, the constructor, is).
Spec §4.1: "Given a sigma > 0, produces a 1-D smoothing kernel (discretized,
normalized Gaussian with unit sum) … Fails (configuration error) if
sigma ≤ 0."  Only the validation behaviour is relevant to any claim (the
pipeline theorems quantify over arbitrary kernel weights); the transcendental
Gaussian weights themselves are represented by the discrete impulse `[1]`,
which has the spec's unit sum. -/
def create1DGaussianKernel (sigma : ℚ) : Except ConfigError (List ℚ) :=
  if sigma ≤ 0 then .error .nonPositiveSigma else .ok [1]

/-- Modelled from the spec: `create1DDerivatedGaussianKernel` is code of this
repository that is not under `src/`.  Spec §4.1: derivative-of-Gaussian
kernel with zero net sum; fails if sigma ≤ 0.  The weights are represented by
the antisymmetric zero-sum kernel `[1, 0, -1]`. -/
def create1DDerivatedGaussianKernel (sigma : ℚ) : Except ConfigError (List ℚ) :=
  if sigma ≤ 0 then .error .nonPositiveSigma else .ok [1, 0, -1]

/-- `CornerDetector::CornerDetector` (source lines 3–15): stores the metric,
visualization flag, `quality_level` and `window_sigma` unchecked, and builds
the three kernels (`g` and `dg` from `gradient_sigma`, `win` from
`window_sigma`).  The only failure path is kernel construction rejecting a
non-positive sigma; no parameter is otherwise validated. -/
def CornerDetector.construct (metric : CornerMetric) (do_visualize : Bool)
    (quality_level gradient_sigma window_sigma : ℚ) :
    Except ConfigError CornerDetector := do
  let g ← create1DGaussianKernel gradient_sigma
  let dg ← create1DDerivatedGaussianKernel gradient_sigma
  let win ← create1DGaussianKernel window_sigma
  return { metric_type_ := metric, do_visualize_ := do_visualize,
           quality_level_ := quality_level, window_sigma_ := window_sigma,
           g_kernel_ := g, dg_kernel_ := dg, win_kernel_ := win }

/-- Modelled from the spec (§4.2 contract, for comparison with the source):
"Ix = image ∗ g (along one axis) ∗ dg (along the orthogonal axis)" — smooth
along the rows with `g`, differentiate along the columns with `dg`. -/
def specIx {h w : ℕ} (g dg : List ℚ) (image : Mat h w) : Mat h w :=
  corr1Dx (corr1Dy image g) dg

/-- Modelled from the spec (§4.2 contract): "Iy = image ∗ dg ∗ g with axes
swapped" — smooth along the columns with `g`, differentiate along the rows
with `dg`. -/
def specIy {h w : ℕ} (g dg : List ℚ) (image : Mat h w) : Mat h w :=
  corr1Dy (corr1Dx image g) dg

/-- The gradient stage as the source actually computes it (lines 19–23):
`Ix` is the image filtered with the smoothing kernel `g` alone. -/
def gradientIx {h w : ℕ} (g : List ℚ) (image : Mat h w) : Mat h w :=
  corr1Dy image g

/-- The gradient stage as the source actually computes it (lines 19–23):
`Iy` is the image filtered with the derivative kernel `dg` alone. -/
def gradientIy {h w : ℕ} (dg : List ℚ) (image : Mat h w) : Mat h w :=
  corr1Dy image dg

/-! ### Concrete inputs used to evaluate the embedded detector -/

/-- A symmetric unit-sum smoothing kernel (a discretized Gaussian). -/
def kernelG : List ℚ := [1/4, 1/2, 1/4]

/-- An antisymmetric zero-sum derivative kernel (a discretized derivative of
Gaussian). -/
def kernelDG : List ℚ := [1/2, 0, -1/2]

/-- A uniformly flat 2×2 image of intensity 1. -/
def imgOnes : Mat 2 2 := fun _ _ => 1

/-- A uniformly flat 2×2 image of intensity 0. -/
def imgZeros : Mat 2 2 := fun _ _ => 0

/-- A 1×3 field (the single shape for which the `Mat` → `cv::Vec3f`
conversions inside `minEigenMetric` would succeed). -/
def row13Ones : Mat 1 3 := fun _ _ => 1

/-- A 1×1 all-zero field (one flat, gradient-free pixel). -/
def pixZero : Mat 1 1 := fun _ _ => 0

/-- A 5×5 image with a single bright spike at the centre. -/
def imgSpike : Mat 5 5 := fun i j => if i = 2 ∧ j = 2 then 100 else 0

/-- A Harris-metric detector with quality level 1/2 and window sigma 2. -/
def cdHarris : CornerDetector :=
  ⟨.harris, false, 1/2, 2, kernelG, kernelDG, kernelG⟩

/-- A minimum-eigenvalue detector with quality level 1/2 and window sigma 2. -/
def cdMinEigen : CornerDetector :=
  ⟨.min_eigen, false, 1/2, 2, kernelG, kernelDG, kernelG⟩

/-- A harmonic-mean detector with quality level 1/2 and window sigma 2. -/
def cdHarmonic : CornerDetector :=
  ⟨.harmonic_mean, false, 1/2, 2, kernelG, kernelDG, kernelG⟩

/-- A Harris-metric detector with quality level 1. -/
def cdHarrisQ1 : CornerDetector :=
  ⟨.harris, false, 1, 2, kernelG, kernelDG, kernelG⟩

/-- The keypoint the embedded detector finds at the spike of `imgSpike`. -/
def kpSpike : KeyPoint :=
  { x := 2, y := 2, size := 6, angle := -1, response := 11828125/8 }

/-- A 2×2 response field with one strict maximum at the origin pixel. -/
def respW : Mat 2 2 := fun i j => if i = 0 ∧ j = 0 then 4 else 1

/-- The keypoint the maxima selector emits on `respW`. -/
def kpW : KeyPoint := { x := 0, y := 0, size := 6, angle := -1, response := 4 }

/-! ### Helper lemmas -/

theorem le_foldl_step {β : Type} (f : ℚ → β → ℚ) (hf : ∀ a b, a ≤ f a b) :
    ∀ (l : List β) (d : ℚ), d ≤ l.foldl f d := by
  intro l
  induction l with
  | nil => intro d; exact le_refl d
  | cons b t ih => intro d; exact le_trans (hf d b) (ih (f d b))

theorem le_foldl_max {l : List ℚ} {a : ℚ} (d : ℚ) (ha : a ∈ l) :
    a ≤ l.foldl max d := by
  induction l generalizing d with
  | nil => cases ha
  | cons b t ih =>
    rcases List.mem_cons.mp ha with hab | hat
    · subst hab
      exact le_trans (le_max_right d a) (le_foldl_step max (fun x y => le_max_left x y) t (max d a))
    · exact ih (max d b) hat

theorem mem_allPixels {h w : ℕ} (i : Fin h) (j : Fin w) : (i, j) ∈ allPixels h w := by
  unfold allPixels
  exact List.mem_flatMap.mpr ⟨i, List.mem_finRange i, List.mem_map_of_mem _ (List.mem_finRange j)⟩

theorem nodup_allPixels (h w : ℕ) : (allPixels h w).Nodup :=
  List.Nodup.product (List.nodup_finRange h) (List.nodup_finRange w)

theorem le_maxVal {h w : ℕ} (resp : Mat h w) (i : Fin h) (j : Fin w) :
    resp i j ≤ maxVal resp := by
  have hm : resp i j ∈ (allPixels h w).map (fun p => resp p.1 p.2) :=
    List.mem_map_of_mem _ (mem_allPixels i j)
  rcases hl : (allPixels h w).map (fun p => resp p.1 p.2) with _ | ⟨v, vs⟩
  · rw [hl] at hm; cases hm
  · rw [hl] at hm
    unfold maxVal
    rw [hl]
    rcases List.mem_cons.mp hm with hv | hvs
    · rw [hv]
      exact le_foldl_step max (fun x y => le_max_left x y) vs v
    · exact le_foldl_max v hvs

theorem le_dilate3 {h w : ℕ} (resp : Mat h w) (i : Fin h) (j : Fin w) :
    resp i j ≤ dilate3 resp i j := by
  unfold dilate3
  apply le_foldl_step
  intro a d
  rcases inFin h ((i : ℤ) + d.1) with _ | i' <;> rcases inFin w ((j : ℤ) + d.2) with _ | j'
  · exact le_refl a
  · exact le_refl a
  · exact le_refl a
  · exact le_max_left a _

theorem atRefl_nonneg {h w : ℕ} {m : Mat h w} (hm : ∀ i j, 0 ≤ m i j) (i j : ℤ) :
    0 ≤ m.atRefl i j := by
  unfold Mat.atRefl
  split
  · exact hm _ _
  · exact le_refl 0

theorem getD_nonneg {k : List ℚ} (hk : ∀ x ∈ k, 0 ≤ x) (t : ℕ) : 0 ≤ k.getD t 0 := by
  rw [List.getD_eq_getElem?_getD]
  rcases ht : k[t]? with _ | a
  · exact le_refl 0
  · exact hk a (List.getElem?_mem ht)

theorem corr1Dy_nonneg {h w : ℕ} {m : Mat h w} {k : List ℚ}
    (hk : ∀ x ∈ k, 0 ≤ x) (hm : ∀ i j, 0 ≤ m i j) (i : Fin h) (j : Fin w) :
    0 ≤ corr1Dy m k i j := by
  apply List.sum_nonneg
  intro x hx
  rcases List.mem_map.mp hx with ⟨t, _, rfl⟩
  exact mul_nonneg (getD_nonneg hk t) (atRefl_nonneg hm _ _)

theorem harrisMetric_nonneg {h w : ℕ} (A B C : Mat h w) (i : Fin h) (j : Fin w) :
    0 ≤ harrisMetric A B C i j :=
  le_max_right _ 0

/-- The response stage never reads `quality_level_`: only the selector does. -/
theorem response_update_ql {h w : ℕ} (d : CornerDetector) (q : ℚ) (image : Mat h w) :
    ({d with quality_level_ := q}).response image = d.response image := rfl

theorem detect_ok_elim {h w : ℕ} {d : CornerDetector} {image : Mat h w}
    {k : List KeyPoint} (hk : d.detect image = .ok k) :
    ∃ resp : Mat h w, d.response image = .ok resp ∧
      k = detectFromResponse d.quality_level_ d.window_sigma_ resp := by
  unfold CornerDetector.detect at hk
  rcases hr : d.response image with e | resp
  · rw [hr] at hk; cases hk
  · rw [hr] at hk
    refine ⟨resp, rfl, ?_⟩
    cases hk
    rfl

/-- Every entry of an `ok` response field is nonnegative, provided the
windowing kernel has nonnegative weights (for the Harris branch the clamp
alone suffices; the minimum-eigenvalue branch never returns `ok`). -/
theorem response_nonneg {h w : ℕ} {d : CornerDetector} {image resp : Mat h w}
    (hwin : ∀ x ∈ d.win_kernel_, 0 ≤ x) (hr : d.response image = .ok resp)
    (i : Fin h) (j : Fin w) : 0 ≤ resp i j := by
  rcases hm : d.metric_type_ with _ | _ | _ <;>
    simp only [CornerDetector.response, hm] at hr
  · cases hr
    exact harrisMetric_nonneg _ _ _ i j
  · unfold seqField at hr
    split at hr
    · cases hr
      simp only [harmonicMeanMetric, Mat.divF]
      split
      · exact le_refl 0
      · simp only [Option.getD_some]
        apply div_nonneg
        · apply mul_nonneg
          · exact corr1Dy_nonneg hwin (fun a b => mul_self_nonneg _) i j
          · exact corr1Dy_nonneg hwin (fun a b => mul_self_nonneg _) i j
        · exact add_nonneg
            (corr1Dy_nonneg hwin (fun a b => mul_self_nonneg _) i j)
            (corr1Dy_nonneg hwin (fun a b => mul_self_nonneg _) i j)
    · cases hr
  · simp only [minEigenMetric] at hr
    split at hr <;> cases hr

/-- If the selected metric is Harris, the `ok` response field is nonnegative
with no assumption on the kernels (the clamp to 0 alone suffices). -/
theorem response_harris_nonneg {h w : ℕ} {d : CornerDetector} {image resp : Mat h w}
    (hm : d.metric_type_ = .harris) (hr : d.response image = .ok resp)
    (i : Fin h) (j : Fin w) : 0 ≤ resp i j := by
  unfold CornerDetector.response at hr
  rw [hm] at hr
  cases hr
  exact harrisMetric_nonneg _ _ _ i j

/-- Raising the quality level can only shrink the selected keypoint list
(for a nonnegative response field). -/
theorem detectFromResponse_anti {h w : ℕ} {resp : Mat h w} {q₁ q₂ : ℚ} (ws : ℚ)
    (hresp : ∀ i j, 0 ≤ resp i j) (hq : q₁ ≤ q₂) :
    (detectFromResponse q₂ ws resp).Sublist (detectFromResponse q₁ ws resp) := by
  unfold detectFromResponse
  apply List.Sublist.map
  apply List.monotone_filter_right
  intro p hp
  rw [decide_eq_true_eq] at hp ⊢
  refine ⟨lt_of_le_of_lt ?_ hp.1, hp.2⟩
  exact mul_le_mul_of_nonneg_right hq
    (le_trans (hresp p.1 p.2) (le_maxVal resp p.1 p.2))

/-- At quality level 1 the strict threshold test fails even at the global
maximum, so the selector returns no keypoints. -/
theorem detectFromResponse_quality_one {h w : ℕ} (resp : Mat h w) (ws : ℚ) :
    detectFromResponse 1 ws resp = [] := by
  simp only [detectFromResponse]
  have hf : ∀ p ∈ allPixels h w,
      ¬(decide ((1:ℚ) * maxVal resp < resp p.1 p.2 ∧
          resp p.1 p.2 = dilate3 resp p.1 p.2) = true) := by
    intro p hp
    rw [decide_eq_true_eq]
    rintro ⟨hlt, -⟩
    rw [one_mul] at hlt
    exact absurd hlt (not_lt.mpr (le_maxVal resp p.1 p.2))
  rw [List.filter_eq_nil_iff.mpr hf, List.map_nil]

/-- Membership in the selector output, characterised pixelwise. -/
theorem mem_detectFromResponse {h w : ℕ} {resp : Mat h w} {ql ws : ℚ}
    {kp : KeyPoint} :
    kp ∈ detectFromResponse ql ws resp ↔
      ∃ p : Fin h × Fin w,
        (ql * maxVal resp < resp p.1 p.2 ∧ resp p.1 p.2 = dilate3 resp p.1 p.2) ∧
        kp = { x := p.2.val, y := p.1.val, size := 3 * ws, angle := -1,
               response := resp p.1 p.2 } := by
  unfold detectFromResponse
  rw [List.mem_map]
  constructor
  · rintro ⟨p, hp, rfl⟩
    rw [List.mem_filter, decide_eq_true_eq] at hp
    exact ⟨p, hp.2, rfl⟩
  · rintro ⟨p, hp, rfl⟩
    refine ⟨p, ?_, rfl⟩
    rw [List.mem_filter, decide_eq_true_eq]
    exact ⟨mem_allPixels p.1 p.2, hp⟩

/-- Counting, by position, the keypoints that a filtered pixel list emits:
for a duplicate-free pixel list, each pixel position appears once if it
survives the filter and not at all otherwise. -/
theorem countP_filter_map_pos {h w : ℕ} (resp : Mat h w) (ws : ℚ)
    (i : Fin h) (j : Fin w) (c : Fin h × Fin w → Bool) :
    ∀ l : List (Fin h × Fin w), l.Nodup →
      ((l.filter c).map (fun p =>
          ({ x := p.2.val, y := p.1.val, size := 3 * ws, angle := -1,
             response := resp p.1 p.2 } : KeyPoint))).countP
          (fun kp => decide (kp.x = j.val ∧ kp.y = i.val))
        = if (i, j) ∈ l ∧ c (i, j) = true then 1 else 0 := by
  intro l
  induction l with
  | nil => intro _; simp
  | cons a t ih =>
    intro hnd
    rw [List.nodup_cons] at hnd
    have hcount_a : ∀ p : Fin h × Fin w,
        (decide ((p.2.val = j.val) ∧ (p.1.val = i.val)) = true) ↔ p = (i, j) := by
      intro p
      rw [decide_eq_true_eq]
      constructor
      · rintro ⟨h2, h1⟩
        exact Prod.ext (Fin.val_inj.mp h1) (Fin.val_inj.mp h2)
      · rintro rfl
        exact ⟨rfl, rfl⟩
    by_cases hc : c a = true
    · rw [List.filter_cons_of_pos hc, List.map_cons, List.countP_cons, ih hnd.2]
      by_cases ha : a = (i, j)
      · subst ha
        simp [hnd.1, hc]
      · have hdec : decide ((a.2.val = j.val) ∧ (a.1.val = i.val)) = false := by
          rw [decide_eq_false_iff_not]
          exact fun hx => ha ((hcount_a a).mp (decide_eq_true hx))
        have hne : ¬((i, j) = a) := fun hx => ha hx.symm
        simp [hdec, List.mem_cons, hne]
    · rw [List.filter_cons_of_neg hc, ih hnd.2]
      by_cases ha : a = (i, j)
      · subst ha
        simp [hc]
      · have hne : ¬((i, j) = a) := fun hx => ha hx.symm
        simp [List.mem_cons, hne]

/-! ### Claims -/

/-- C1: the claim says `Ix` is the image convolved with the smoothing kernel
`g` along one axis and with the derivative kernel `dg` along the orthogonal
axis (and `Iy` with the axes swapped).  The source instead performs a single
`filter2D` with `g` alone for `Ix`: on the flat all-ones image, the source's
`Ix` is `1` everywhere (a smoothed copy of the image, not a gradient), while
the claimed separable convolution yields `0` everywhere, so the two fields
differ. -/
theorem gradientIx_ignores_derivative_kernel :
    gradientIx kernelG imgOnes 0 0 = 1 ∧
    specIx kernelG kernelDG imgOnes 0 0 = 0 ∧
    gradientIx kernelG imgOnes 0 0 ≠ specIx kernelG kernelDG imgOnes 0 0 := by
  refine ⟨by decide, by decide, by decide⟩

/-- C2: the claim says the harmonic-mean metric returns the safe fallback
`0` wherever `A + C = 0`.  The source divides with no guard, so a flat
(all-zero) pixel produces `0/0 = NaN` (modelled as `none`), and the NaN
propagates into the response field of `detect` instead of a zero
response. -/
theorem harmonicMean_flat_pixel_nan :
    harmonicMeanMetric pixZero pixZero pixZero 0 0 = none ∧
    cdHarmonic.detect imgZeros = .error .nanResponse := by
  refine ⟨by decide, by decide⟩

/-- C3: the claim says the minimum-eigenvalue metric returns `min(λ1, λ2)`
per pixel via the clamped closed-form formula.  The source instead packs the
whole fields `A`, `B`, `C` into the first three `Vec3f` entries of one
3-channel matrix and calls `cv::eigen` on it: the `Mat`→`Vec3f` conversion
asserts a 3-element field shape (failing for the 2×2 input), and even for a
1×3 field `cv::eigen` rejects the 3-channel matrix, so the metric raises for
every input and never returns a response field. -/
theorem minEigenMetric_always_raises :
    minEigenMetric imgOnes imgOnes imgOnes = .error .matToVec3fSizeMismatch ∧
    minEigenMetric row13Ones row13Ones row13Ones = .error .eigenNonSingleChannel :=
  ⟨rfl, rfl⟩

/-- C4: a pixel produces a keypoint iff its response strictly exceeds
`quality_level` times the global maximum response and equals the 3×3 dilated
value at its position (ties allowed); each surviving pixel yields exactly one
keypoint (counted by position), with size `3 · window_sigma` and response
copied from the response field. -/
theorem detectFromResponse_keypoint_iff {h w : ℕ} (resp : Mat h w) (ql ws : ℚ) :
    (∀ (i : Fin h) (j : Fin w),
        (detectFromResponse ql ws resp).countP
            (fun kp => decide (kp.x = j.val ∧ kp.y = i.val))
          = if ql * maxVal resp < resp i j ∧ resp i j = dilate3 resp i j
            then 1 else 0)
    ∧ (∀ kp ∈ detectFromResponse ql ws resp,
        kp.size = 3 * ws ∧
        ∃ (i : Fin h) (j : Fin w), kp.x = j.val ∧ kp.y = i.val ∧
          kp.response = resp i j ∧
          ql * maxVal resp < resp i j ∧ resp i j = dilate3 resp i j) := by
  constructor
  · intro i j
    have hcount := countP_filter_map_pos resp ws i j
      (fun p => decide (ql * maxVal resp < resp p.1 p.2 ∧
        resp p.1 p.2 = dilate3 resp p.1 p.2))
      (allPixels h w) (nodup_allPixels h w)
    simp only [detectFromResponse]
    rw [hcount]
    simp [mem_allPixels i j]
  · intro kp hkp
    obtain ⟨p, ⟨hlt, heq⟩, rfl⟩ := mem_detectFromResponse.mp hkp
    exact ⟨rfl, p.1, p.2, rfl, rfl, rfl, hlt, heq⟩

/-- C4 witness: on the concrete field `respW` the origin pixel passes both
tests and is counted exactly once, and its keypoint carries the selector's
size and response. -/
theorem detectFromResponse_keypoint_iff_witness :
    ((detectFromResponse (1/2) 2 respW).countP
        (fun kp => decide (kp.x = (0 : Fin 2).val ∧ kp.y = (0 : Fin 2).val)) = 1) ∧
    kpW ∈ detectFromResponse (1/2) 2 respW ∧
    kpW.size = 3 * 2 := by
  refine ⟨?_, by decide, ?_⟩
  · rw [(detectFromResponse_keypoint_iff respW (1/2) 2).1 0 0]
    decide
  · exact ((detectFromResponse_keypoint_iff respW (1/2) 2).2 kpW (by decide)).1

/-- C5: the claim says non-positive sigmas and a quality level outside
`(0, 1]` are rejected at construction.  Kernel construction (modelled from
the spec) does reject `sigma ≤ 0`, but the constructor stores
`quality_level` without any check: construction with `quality_level = 2`
succeeds. -/
theorem construct_accepts_invalid_quality_level :
    CornerDetector.construct .harris false 2 1 1 =
      .ok ⟨.harris, false, 2, 1, [1], [1, 0, -1], [1]⟩ ∧
    CornerDetector.construct .harris false (1/2) (-1) 1 =
      .error .nonPositiveSigma := by
  refine ⟨by decide, by decide⟩

/-- C6: at every pixel the Harris metric equals
`det(M) − α·trace(M)²` with `α = 0.06`, `det(M) = A·C − B²`,
`trace(M) = A + C`, clamped at zero from below, and is therefore
nonnegative; the value depends only on the entries of `A`, `B`, `C` at that
pixel. -/
theorem harrisMetric_formula {h w : ℕ} (A B C : Mat h w) (i : Fin h) (j : Fin w) :
    harrisMetric A B C i j =
      max ((A i j * C i j - B i j ^ 2) - 6/100 * (A i j + C i j) ^ 2) 0 ∧
    0 ≤ harrisMetric A B C i j := by
  constructor
  · simp only [harrisMetric, Mat.maxS, Mat.sub, Mat.mul, Mat.add, Mat.smul]
    congr 1
    rw [show (0.06 : ℚ) = 6/100 from by norm_num]
    ring
  · exact harrisMetric_nonneg A B C i j

/-- C7: the claim says that on a uniformly flat image all three metrics give
zero response and `detect` returns no keypoints.  This holds for the Harris
metric, and for the harmonic mean at nonzero intensity, but the
minimum-eigenvalue branch raises instead of returning an empty keypoint
list, and at intensity 0 the harmonic mean divides `0/0` (NaN) instead of
yielding zero. -/
theorem flat_image_detection :
    cdHarris.detect imgOnes = .ok [] ∧
    cdHarmonic.detect imgOnes = .ok [] ∧
    cdMinEigen.detect imgOnes = .error .matToVec3fSizeMismatch ∧
    cdHarmonic.detect imgZeros = .error .nanResponse := by
  refine ⟨by decide, by decide, by decide, by decide⟩

/-- C8: for one image and two configurations differing only in the quality
level, the keypoints detected with the larger quality level form a subset of
(indeed a sublist of, hence also no more numerous than) those detected with
the smaller one. -/
theorem detect_quality_level_monotone {h w : ℕ} (d : CornerDetector) (q₁ q₂ : ℚ)
    (image : Mat h w) (k₁ k₂ : List KeyPoint)
    (hwin : ∀ x ∈ d.win_kernel_, 0 ≤ x) (hq : q₁ ≤ q₂)
    (h₁ : ({d with quality_level_ := q₁}).detect image = .ok k₁)
    (h₂ : ({d with quality_level_ := q₂}).detect image = .ok k₂) :
    k₂ ⊆ k₁ ∧ k₂.length ≤ k₁.length := by
  obtain ⟨r₁, hr₁, hk₁⟩ := detect_ok_elim h₁
  obtain ⟨r₂, hr₂, hk₂⟩ := detect_ok_elim h₂
  rw [response_update_ql] at hr₁ hr₂
  rw [hr₁] at hr₂
  cases hr₂
  subst hk₁
  subst hk₂
  have hnn : ∀ (i : Fin h) (j : Fin w), 0 ≤ r₁ i j :=
    fun i j => response_nonneg hwin hr₁ i j
  have hsub := detectFromResponse_anti d.window_sigma_ hnn hq
  exact ⟨hsub.subset, hsub.length_le⟩

set_option maxRecDepth 40000 in
/-- C8 witness: on the spike image, quality levels 1/4 and 1/2 both select
exactly the spike keypoint, and the larger-level list is a subset of the
smaller-level one. -/
theorem detect_quality_level_monotone_witness :
    ({cdHarris with quality_level_ := 1/4}).detect imgSpike = .ok [kpSpike] ∧
    ({cdHarris with quality_level_ := 1/2}).detect imgSpike = .ok [kpSpike] ∧
    ([kpSpike] ⊆ [kpSpike] ∧ [kpSpike].length ≤ [kpSpike].length) :=
  ⟨by decide, by decide,
    detect_quality_level_monotone cdHarris (1/4) (1/2) imgSpike [kpSpike] [kpSpike]
      (by decide) (by norm_num) (by decide) (by decide)⟩

/-- C9: with quality level 1 the threshold equals the global maximum
response, and since a keypoint needs a response strictly above the
threshold, no pixel — the maximiser included — passes: `detect` returns the
empty keypoint sequence whenever it returns at all. -/
theorem detect_quality_level_one_empty {h w : ℕ} (d : CornerDetector)
    (image : Mat h w) (k : List KeyPoint)
    (hq : d.quality_level_ = 1) (hk : d.detect image = .ok k) : k = [] := by
  obtain ⟨resp, hr, hkk⟩ := detect_ok_elim hk
  rw [hq] at hkk
  rw [hkk, detectFromResponse_quality_one]

/-- C9 witness: the Harris detector with quality level 1 on the flat image
returns no keypoints. -/
theorem detect_quality_level_one_empty_witness :
    cdHarrisQ1.quality_level_ = 1 ∧
    cdHarrisQ1.detect imgOnes = .ok [] ∧ ([] : List KeyPoint) = [] :=
  ⟨rfl, by decide, detect_quality_level_one_empty cdHarrisQ1 imgOnes [] rfl (by decide)⟩

/-- C10: with the Harris metric every returned keypoint has a strictly
positive response: the clamp makes the response field nonnegative, hence the
threshold `quality_level · max` is nonnegative (for a nonnegative quality
level), and the strict threshold test forces each surviving response above
it. -/
theorem detect_harris_positive_responses {h w : ℕ} (d : CornerDetector)
    (image : Mat h w) (k : List KeyPoint)
    (hm : d.metric_type_ = .harris) (hq : 0 ≤ d.quality_level_)
    (hk : d.detect image = .ok k) :
    ∀ kp ∈ k, 0 < kp.response := by
  obtain ⟨resp, hr, hkk⟩ := detect_ok_elim hk
  subst hkk
  intro kp hkp
  obtain ⟨p, ⟨hlt, -⟩, rfl⟩ := mem_detectFromResponse.mp hkp
  have h0 : 0 ≤ d.quality_level_ * maxVal resp :=
    mul_nonneg hq
      (le_trans (response_harris_nonneg hm hr p.1 p.2) (le_maxVal resp p.1 p.2))
  exact lt_of_le_of_lt h0 hlt

set_option maxRecDepth 40000 in
/-- C10 witness: the Harris detector on the spike image returns exactly the
spike keypoint, and its response is strictly positive. -/
theorem detect_harris_positive_responses_witness :
    cdHarris.detect imgSpike = .ok [kpSpike] ∧ 0 < kpSpike.response :=
  ⟨by decide,
    detect_harris_positive_responses cdHarris imgSpike [kpSpike] rfl (by decide)
      (by decide) kpSpike (by decide)⟩

end CornerLab
